import Mathlib

/-!
# Verification of the masterstat QuakeWorld master-server client

Shallow embedding of the library's pure core:

* `server_address.rs`: the wire record `RawServerAddress` (4 IP octets and a
  big-endian 16-bit port), the typed `ServerAddress` (dotted-decimal string
  plus port), and the conversion between them.
* `command.rs`: the response parser `parse_servers_response`, the
  normalisation `sorted_and_unique`, the single-master query
  `server_addresses` and the fan-out `server_addresses_from_many`.

Bytes are modelled as natural numbers (with `< 256` bounds stated where a
claim needs them), the UDP transport as an oracle function passed in as an
argument, `anyhow::Result` as `Except String`, and `Duration` as an opaque
`Nat`.  Rust's stable `sort` is modelled by `List.mergeSort` on the derived
lexicographic order and `Vec::dedup` by `dedupAdjacent` below.
-/

namespace Masterstat

/-- `RAW_ADDRESS_SIZE` from `server_address.rs`: a raw record is 6 bytes. -/
def RAW_ADDRESS_SIZE : Nat := 6

/-- `SERVERS_COMMAND` from `command.rs`: the fixed query datagram. -/
def SERVERS_COMMAND : List Nat := [0x63, 0x0a, 0x00]

/-- `SERVERS_RESPONSE_HEADER` from `command.rs`: the magic response header. -/
def SERVERS_RESPONSE_HEADER : List Nat := [0xff, 0xff, 0xff, 0xff, 0x64, 0x0a]

/-- `RawServerAddress` from `server_address.rs`: `ip: [u8; 4]` plus a
big-endian `U16` stored as its two wire bytes. -/
structure RawServerAddress where
  ip : List Nat
  portHi : Nat
  portLo : Nat
deriving Repr, DecidableEq

/-- `zerocopy::FromBytes::read_from` specialised to `RawServerAddress`:
succeeds exactly on 6-byte buffers, copying the four IP octets and the two
port bytes. -/
def RawServerAddress.read_from (b : List Nat) : Option RawServerAddress :=
  match b with
  | [a0, a1, a2, a3, p0, p1] => some ⟨[a0, a1, a2, a3], p0, p1⟩
  | _ => none

/-- `ServerAddress` from `server_address.rs`. -/
structure ServerAddress where
  ip : String
  port : Nat
deriving Repr, DecidableEq

/-- `impl From<RawServerAddress> for ServerAddress`: format each octet in
decimal, join with `"."`, and decode the big-endian port. -/
def ServerAddress.ofRaw (raw : RawServerAddress) : ServerAddress :=
  { ip := String.intercalate "." (raw.ip.map Nat.repr)
    port := raw.portHi * 256 + raw.portLo }

/-- The strict order on `ServerAddress` derived by `#[derive(PartialOrd, Ord)]`
in Rust: lexicographic on the fields in declaration order, i.e. string
comparison on `ip` first, then numeric comparison on `port`. -/
def ServerAddress.lt (a b : ServerAddress) : Prop :=
  a.ip < b.ip ∨ (a.ip = b.ip ∧ a.port < b.port)

/-- The non-strict companion of `ServerAddress.lt`. -/
def ServerAddress.le (a b : ServerAddress) : Prop :=
  a.ip < b.ip ∨ (a.ip = b.ip ∧ a.port ≤ b.port)

instance (a b : ServerAddress) : Decidable (ServerAddress.lt a b) := by
  unfold ServerAddress.lt
  infer_instance

instance (a b : ServerAddress) : Decidable (ServerAddress.le a b) := by
  unfold ServerAddress.le
  infer_instance

/-- Boolean comparator used for sorting, mirroring `Vec::sort`'s use of the
derived total order. -/
def saLe (a b : ServerAddress) : Bool := decide (ServerAddress.le a b)

/-- `Vec::dedup`: remove consecutive repeated elements, keeping the first of
each run (`PartialEq` on `ServerAddress` is structural equality). -/
def dedupAdjacent : List ServerAddress → List ServerAddress
  | [] => []
  | [a] => [a]
  | a :: b :: rest =>
    if a = b then dedupAdjacent (b :: rest)
    else a :: dedupAdjacent (b :: rest)

/-- `sorted_and_unique` from `command.rs`: clone, `sort`, `dedup`. -/
def sorted_and_unique (server_addresses : List ServerAddress) : List ServerAddress :=
  dedupAdjacent ((server_addresses).mergeSort saLe)

/-- `slice::chunks(RAW_ADDRESS_SIZE)` with the chunk size 6 inlined:
non-overlapping windows in order, the last one possibly shorter. -/
def chunks6 : List Nat → List (List Nat)
  | [] => []
  | b0 :: b1 :: b2 :: b3 :: b4 :: b5 :: rest => [b0, b1, b2, b3, b4, b5] :: chunks6 rest
  | l => [l]

/-- `parse_servers_response` from `command.rs`: require the magic header,
then split the body into 6-byte chunks, keep only full chunks, decode each
raw record and convert it. -/
def parse_servers_response (response : List Nat) : Except String (List ServerAddress) :=
  if response.take SERVERS_RESPONSE_HEADER.length = SERVERS_RESPONSE_HEADER then
    Except.ok ((((chunks6 (response.drop SERVERS_RESPONSE_HEADER.length)).filter
          (fun b => b.length == RAW_ADDRESS_SIZE)).filterMap
        RawServerAddress.read_from).map ServerAddress.ofRaw)
  else
    Except.error "Invalid response"

/-- The transport oracle: `udp::send_and_receive(address, message, timeout)`.
The network's behaviour is a parameter of the embedding. -/
abbrev Net := String → List Nat → Option Nat → Except String (List Nat)

/-- `server_addresses` from `command.rs`: send the fixed command, parse the
reply, normalise, propagating either error unchanged. -/
def server_addresses (net : Net) (master_address : String) (timeout : Option Nat) :
    Except String (List ServerAddress) := do
  let response ← net master_address SERVERS_COMMAND timeout
  let servers ← parse_servers_response response
  return sorted_and_unique servers

/-- One master's contribution to the fan-out accumulator: its successful
result, or nothing when its query errored (the `if let Ok(servers)` body). -/
def masterContribution (net : Net) (timeout : Option Nat) (master : String) :
    List ServerAddress :=
  match server_addresses net master timeout with
  | Except.ok servers => servers
  | Except.error _ => []

/-- `server_addresses_from_many` from `command.rs`, with the mutex-guarded
accumulator modelled in task-spawn order: the tasks only ever append their own
successful results under the lock, so after the `join_all` barrier the
accumulator is a permutation of this concatenation (permutation invariance of
the result is proved below). -/
def server_addresses_from_many (net : Net) (master_addresses : List String)
    (timeout : Option Nat) : List ServerAddress :=
  sorted_and_unique (List.flatten (master_addresses.map (masterContribution net timeout)))

/-! ### Order lemmas for `ServerAddress` -/

theorem sa_eq_iff {a b : ServerAddress} : a = b ↔ a.ip = b.ip ∧ a.port = b.port := by
  cases a
  cases b
  simp

theorem sa_le_refl (a : ServerAddress) : ServerAddress.le a a :=
  Or.inr ⟨rfl, Nat.le.refl⟩

theorem sa_le_trans {a b c : ServerAddress} (h1 : ServerAddress.le a b)
    (h2 : ServerAddress.le b c) : ServerAddress.le a c := by
  rcases h1 with h1 | ⟨h1, h1'⟩ <;> rcases h2 with h2 | ⟨h2, h2'⟩
  · exact Or.inl (lt_trans h1 h2)
  · exact Or.inl (h2 ▸ h1)
  · exact Or.inl (h1 ▸ h2)
  · exact Or.inr ⟨h1.trans h2, Nat.le_trans h1' h2'⟩

theorem sa_le_antisymm {a b : ServerAddress} (h1 : ServerAddress.le a b)
    (h2 : ServerAddress.le b a) : a = b := by
  rcases h1 with h1 | ⟨h1, h1'⟩ <;> rcases h2 with h2 | ⟨h2, h2'⟩
  · exact absurd (lt_trans h1 h2) (lt_irrefl _)
  · exact absurd h1 (h2 ▸ lt_irrefl _)
  · exact absurd h2 (h1 ▸ lt_irrefl _)
  · exact sa_eq_iff.mpr ⟨h1, Nat.le_antisymm h1' h2'⟩

theorem sa_le_total (a b : ServerAddress) : ServerAddress.le a b ∨ ServerAddress.le b a := by
  rcases lt_trichotomy a.ip b.ip with h | h | h
  · exact Or.inl (Or.inl h)
  · rcases Nat.le_total a.port b.port with hp | hp
    · exact Or.inl (Or.inr ⟨h, hp⟩)
    · exact Or.inr (Or.inr ⟨h.symm, hp⟩)
  · exact Or.inr (Or.inl h)

theorem sa_le_of_lt {a b : ServerAddress} (h : ServerAddress.lt a b) : ServerAddress.le a b := by
  rcases h with h | ⟨h, h'⟩
  · exact Or.inl h
  · exact Or.inr ⟨h, Nat.le_of_lt h'⟩

theorem sa_ne_of_lt {a b : ServerAddress} (h : ServerAddress.lt a b) : a ≠ b := by
  rintro rfl
  rcases h with h | ⟨-, h⟩
  · exact lt_irrefl _ h
  · exact Nat.lt_irrefl _ h

theorem sa_lt_of_le_of_ne {a b : ServerAddress} (h : ServerAddress.le a b) (hne : a ≠ b) :
    ServerAddress.lt a b := by
  rcases h with h | ⟨h, h'⟩
  · exact Or.inl h
  · rcases Nat.lt_or_ge a.port b.port with hp | hp
    · exact Or.inr ⟨h, hp⟩
    · exact absurd (sa_eq_iff.mpr ⟨h, Nat.le_antisymm h' hp⟩) hne

theorem sa_lt_trans {a b c : ServerAddress} (h1 : ServerAddress.lt a b)
    (h2 : ServerAddress.lt b c) : ServerAddress.lt a c := by
  have h := sa_le_trans (sa_le_of_lt h1) (sa_le_of_lt h2)
  refine sa_lt_of_le_of_ne h ?_
  rintro rfl
  exact sa_ne_of_lt h1 (sa_le_antisymm (sa_le_of_lt h1) (sa_le_of_lt h2))

theorem saLe_iff {a b : ServerAddress} : saLe a b = true ↔ ServerAddress.le a b := by
  simp [saLe]

theorem saLe_trans_bool (a b c : ServerAddress) (h1 : saLe a b) (h2 : saLe b c) : saLe a c :=
  saLe_iff.mpr (sa_le_trans (saLe_iff.mp h1) (saLe_iff.mp h2))

theorem saLe_total_bool (a b : ServerAddress) : saLe a b || saLe b a := by
  rcases sa_le_total a b with h | h
  · simp [saLe_iff.mpr h]
  · simp [saLe_iff.mpr h]

/-! ### Lemmas about `dedupAdjacent` and `sorted_and_unique` -/

theorem dedupAdjacent_sublist : ∀ l : List ServerAddress, (dedupAdjacent l).Sublist l
  | [] => by simp [dedupAdjacent]
  | [a] => by simp [dedupAdjacent]
  | a :: b :: rest => by
    by_cases hEq : a = b
    · rw [dedupAdjacent, if_pos hEq]
      exact (dedupAdjacent_sublist (b :: rest)).cons a
    · rw [dedupAdjacent, if_neg hEq]
      exact (dedupAdjacent_sublist (b :: rest)).cons₂ a

theorem mem_dedupAdjacent : ∀ (l : List ServerAddress) (a : ServerAddress),
    a ∈ dedupAdjacent l ↔ a ∈ l
  | [], a => by simp [dedupAdjacent]
  | [x], a => by simp [dedupAdjacent]
  | x :: b :: rest, a => by
    by_cases hEq : x = b
    · subst hEq
      rw [dedupAdjacent, if_pos rfl, mem_dedupAdjacent (x :: rest)]
      simp [List.mem_cons]
    · rw [dedupAdjacent, if_neg hEq]
      simp [List.mem_cons, mem_dedupAdjacent (b :: rest)]

theorem dedupAdjacent_cons : ∀ (xs : List ServerAddress) (x : ServerAddress),
    ∃ t, dedupAdjacent (x :: xs) = x :: t
  | [], x => ⟨[], rfl⟩
  | b :: rest, x => by
    by_cases hEq : x = b
    · subst hEq
      obtain ⟨t, ht⟩ := dedupAdjacent_cons rest x
      exact ⟨t, by rw [dedupAdjacent, if_pos rfl, ht]⟩
    · exact ⟨dedupAdjacent (b :: rest), by rw [dedupAdjacent, if_neg hEq]⟩

theorem dedupAdjacent_chain : ∀ l : List ServerAddress,
    l.Pairwise ServerAddress.le → (dedupAdjacent l).Chain' ServerAddress.lt
  | [], _ => by simp [dedupAdjacent]
  | [a], _ => by simp [dedupAdjacent]
  | a :: b :: rest, h => by
    have hab : ServerAddress.le a b := (List.pairwise_cons.mp h).1 b (by simp)
    have htail := (List.pairwise_cons.mp h).2
    have hrec := dedupAdjacent_chain (b :: rest) htail
    by_cases hEq : a = b
    · rw [dedupAdjacent, if_pos hEq]
      exact hrec
    · obtain ⟨t, ht⟩ := dedupAdjacent_cons rest b
      rw [dedupAdjacent, if_neg hEq, ht]
      rw [ht] at hrec
      exact List.chain'_cons.mpr ⟨sa_lt_of_le_of_ne hab hEq, hrec⟩

theorem dedupAdjacent_eq_self : ∀ l : List ServerAddress,
    l.Chain' (fun a b => a ≠ b) → dedupAdjacent l = l
  | [], _ => rfl
  | [a], _ => rfl
  | a :: b :: rest, h => by
    rw [dedupAdjacent, if_neg (List.chain'_cons.mp h).1,
      dedupAdjacent_eq_self (b :: rest) (List.chain'_cons.mp h).2]

theorem mergeSort_saLe_pairwise (l : List ServerAddress) :
    (l.mergeSort saLe).Pairwise ServerAddress.le :=
  (List.sorted_mergeSort saLe_trans_bool saLe_total_bool l).imp fun h => saLe_iff.mp h

theorem sorted_and_unique_pairwise (l : List ServerAddress) :
    (sorted_and_unique l).Pairwise ServerAddress.lt := by
  haveI : IsTrans ServerAddress ServerAddress.lt := ⟨fun _ _ _ => sa_lt_trans⟩
  exact List.chain'_iff_pairwise.mp (dedupAdjacent_chain _ (mergeSort_saLe_pairwise l))

theorem mem_sorted_and_unique (l : List ServerAddress) (a : ServerAddress) :
    a ∈ sorted_and_unique l ↔ a ∈ l := by
  rw [sorted_and_unique, mem_dedupAdjacent, List.mem_mergeSort]

theorem sorted_and_unique_eq_self {l : List ServerAddress}
    (h : l.Pairwise ServerAddress.lt) : sorted_and_unique l = l := by
  have hle : l.Pairwise fun a b => saLe a b := h.imp fun hab => saLe_iff.mpr (sa_le_of_lt hab)
  rw [sorted_and_unique, List.mergeSort_of_sorted hle]
  exact dedupAdjacent_eq_self l (h.chain'.imp fun _ _ hab => sa_ne_of_lt hab)

theorem sorted_and_unique_perm {l₁ l₂ : List ServerAddress} (h : l₁.Perm l₂) :
    sorted_and_unique l₁ = sorted_and_unique l₂ := by
  haveI : IsAntisymm ServerAddress ServerAddress.le := ⟨fun _ _ => sa_le_antisymm⟩
  have hp : (l₁.mergeSort saLe).Perm (l₂.mergeSort saLe) :=
    ((List.mergeSort_perm l₁ saLe).trans h).trans (List.mergeSort_perm l₂ saLe).symm
  rw [sorted_and_unique, sorted_and_unique,
    List.eq_of_perm_of_sorted hp (mergeSort_saLe_pairwise l₁) (mergeSort_saLe_pairwise l₂)]

/-! ### Claim theorems: parsing and record decoding -/

/-- C1: `parse_servers_response` rejects, with the `"Invalid response"` error,
exactly the buffers that do not start with the 6-byte magic header (which
covers the empty buffer and every buffer shorter than 6 bytes), and returns
`Except.ok` on every buffer that does start with the header. -/
theorem parse_servers_response_header_validation (response : List Nat) :
    ((¬ ∃ rest, response = SERVERS_RESPONSE_HEADER ++ rest) →
      parse_servers_response response = Except.error "Invalid response") ∧
    (∀ rest, response = SERVERS_RESPONSE_HEADER ++ rest →
      ∃ v, parse_servers_response response = Except.ok v) := by
  constructor
  · intro h
    rw [parse_servers_response, if_neg]
    intro htake
    refine h ⟨response.drop SERVERS_RESPONSE_HEADER.length, ?_⟩
    conv_lhs => rw [← List.take_append_drop SERVERS_RESPONSE_HEADER.length response]
    rw [htake]
  · rintro rest rfl
    exact ⟨_, by rw [parse_servers_response, if_pos (List.take_left _ _)]⟩

theorem parse_servers_response_header_validation_witness :
    parse_servers_response [0xff, 0xff] = Except.error "Invalid response" ∧
    ∃ v, parse_servers_response [0xff, 0xff, 0xff, 0xff, 0x64, 0x0a, 0x01]
      = Except.ok v :=
  ⟨(parse_servers_response_header_validation [0xff, 0xff]).1
      (by rintro ⟨rest, h⟩; simp [SERVERS_RESPONSE_HEADER] at h),
   (parse_servers_response_header_validation _).2 [0x01] rfl⟩

theorem read_from_some_of_six (b : List Nat) (h : b.length = RAW_ADDRESS_SIZE) :
    ∃ r, RawServerAddress.read_from b = some r := by
  rcases b with _ | ⟨a0, _ | ⟨a1, _ | ⟨a2, _ | ⟨a3, _ | ⟨p0, _ | ⟨p1, rest⟩⟩⟩⟩⟩⟩ <;>
    simp [RAW_ADDRESS_SIZE] at h
  subst h
  exact ⟨_, rfl⟩

/-- C8: decoding a raw record from a 6-byte buffer never fails, so the
failure branch of the `filter_map` in `parse_servers_response` is unreachable
for the full-length windows that reach it. -/
theorem read_from_total_on_six_bytes (b : List Nat) (h : b.length = RAW_ADDRESS_SIZE) :
    ∃ r, RawServerAddress.read_from b = some r :=
  read_from_some_of_six b h

theorem read_from_total_on_six_bytes_witness :
    ∃ r, RawServerAddress.read_from [192, 168, 1, 1, 0x75, 0x30] = some r :=
  read_from_total_on_six_bytes [192, 168, 1, 1, 0x75, 0x30] (by decide)

/-- C2: decoding the 6-byte record `[o0, o1, o2, o3, hi p, lo p]` (big-endian
port) through `RawServerAddress.read_from` and the conversion to
`ServerAddress` yields the dotted-decimal IP string and the port `p`. -/
theorem record_decode_round_trip (o0 o1 o2 o3 p : Nat)
    (h0 : o0 < 256) (h1 : o1 < 256) (h2 : o2 < 256) (h3 : o3 < 256)
    (hp : p < 65536) :
    (RawServerAddress.read_from [o0, o1, o2, o3, p / 256, p % 256]).map
        ServerAddress.ofRaw =
      some { ip := Nat.repr o0 ++ "." ++ Nat.repr o1 ++ "." ++ Nat.repr o2
               ++ "." ++ Nat.repr o3
             port := p } := by
  rw [RawServerAddress.read_from]
  simp only [Option.map_some', ServerAddress.ofRaw, List.map_cons, List.map_nil,
    String.intercalate, String.intercalate.go]
  have hport : p / 256 * 256 + p % 256 = p := by omega
  rw [hport]

theorem record_decode_round_trip_witness :
    (RawServerAddress.read_from [192, 168, 1, 1, 30000 / 256, 30000 % 256]).map
        ServerAddress.ofRaw =
      some { ip := Nat.repr 192 ++ "." ++ Nat.repr 168 ++ "." ++ Nat.repr 1
               ++ "." ++ Nat.repr 1
             port := 30000 } :=
  record_decode_round_trip 192 168 1 1 30000 (by decide) (by decide) (by decide)
    (by decide) (by decide)

/-! ### Chunking lemmas and the trailing-partial-record claim -/

theorem chunks6_append_full (r tail : List Nat) (h : r.length = RAW_ADDRESS_SIZE) :
    chunks6 (r ++ tail) = r :: chunks6 tail := by
  rcases r with _ | ⟨b0, _ | ⟨b1, _ | ⟨b2, _ | ⟨b3, _ | ⟨b4, _ | ⟨b5, rest⟩⟩⟩⟩⟩⟩ <;>
    simp [RAW_ADDRESS_SIZE] at h
  subst h
  rfl

theorem chunks6_short (rem : List Nat) (hne : rem ≠ []) (h5 : rem.length ≤ 5) :
    chunks6 rem = [rem] := by
  rcases rem with _ | ⟨b0, _ | ⟨b1, _ | ⟨b2, _ | ⟨b3, _ | ⟨b4, rest⟩⟩⟩⟩⟩
  · exact absurd rfl hne
  · rfl
  · rfl
  · rfl
  · rfl
  · have : rest = [] := by
      simp only [List.length_cons] at h5
      exact List.length_eq_zero.mp (by omega)
    subst this
    rfl

theorem chunks6_flatten (recs : List (List Nat))
    (hrec : ∀ r ∈ recs, r.length = RAW_ADDRESS_SIZE) (rem : List Nat)
    (hne : rem ≠ []) (h5 : rem.length ≤ 5) :
    chunks6 (recs.flatten ++ rem) = recs ++ [rem] := by
  induction recs with
  | nil => simpa using chunks6_short rem hne h5
  | cons r recs ih =>
    rw [List.flatten_cons, List.append_assoc,
      chunks6_append_full r _ (hrec r (by simp)),
      ih (fun x hx => hrec x (by simp [hx]))]
    rfl

theorem length_filterMap_all_some {α β : Type} (f : α → Option β) :
    ∀ l : List α, (∀ a ∈ l, (f a).isSome) → (l.filterMap f).length = l.length
  | [], _ => rfl
  | a :: l, h => by
    obtain ⟨b, hb⟩ := Option.isSome_iff_exists.mp (h a (by simp))
    rw [List.filterMap_cons, hb]
    simp only [List.length_cons,
      length_filterMap_all_some f l (fun x hx => h x (by simp [hx]))]

/-- C3: a valid header followed by `N` full 6-byte records plus a trailing
remainder of 1 to 5 extra bytes parses to `Except.ok` with exactly the `N`
addresses decoded from the records in wire order; the partial trailing record
is dropped silently. -/
theorem parse_trailing_partial_dropped (recs : List (List Nat))
    (hrec : ∀ r ∈ recs, r.length = RAW_ADDRESS_SIZE) (rem : List Nat)
    (hne : rem ≠ []) (h5 : rem.length ≤ 5) :
    parse_servers_response (SERVERS_RESPONSE_HEADER ++ (recs.flatten ++ rem)) =
      Except.ok (recs.filterMap fun r =>
        (RawServerAddress.read_from r).map ServerAddress.ofRaw) ∧
    (recs.filterMap fun r =>
        (RawServerAddress.read_from r).map ServerAddress.ofRaw).length =
      recs.length := by
  have hsome : ∀ r ∈ recs,
      ((RawServerAddress.read_from r).map ServerAddress.ofRaw).isSome := by
    intro r hr
    obtain ⟨v, hv⟩ := read_from_some_of_six r (hrec r hr)
    simp [hv]
  constructor
  · rw [parse_servers_response, if_pos (List.take_left _ _), List.drop_left,
      chunks6_flatten recs hrec rem hne h5, List.filter_append]
    have hkeep : recs.filter (fun b => b.length == RAW_ADDRESS_SIZE) = recs :=
      List.filter_eq_self.mpr fun r hr => by simp [hrec r hr]
    have hdropRem : List.filter (fun b => b.length == RAW_ADDRESS_SIZE) [rem] = [] := by
      have : (rem.length == RAW_ADDRESS_SIZE) = false := by
        simp only [RAW_ADDRESS_SIZE, beq_eq_false_iff_ne, ne_eq]
        omega
      simp [List.filter, this]
    rw [hkeep, hdropRem, List.append_nil, List.map_filterMap]
  · exact length_filterMap_all_some _ recs hsome

theorem parse_trailing_partial_dropped_witness :
    parse_servers_response (SERVERS_RESPONSE_HEADER ++
        ([[192, 168, 1, 1, 0x75, 0x30]].flatten ++ [0xde, 0xad])) =
      Except.ok ([[192, 168, 1, 1, 0x75, 0x30]].filterMap fun r =>
        (RawServerAddress.read_from r).map ServerAddress.ofRaw) ∧
    ([[192, 168, 1, 1, 0x75, 0x30]].filterMap fun r =>
        (RawServerAddress.read_from r).map ServerAddress.ofRaw).length =
      [[192, 168, 1, 1, 0x75, 0x30]].length :=
  parse_trailing_partial_dropped [[192, 168, 1, 1, 0x75, 0x30]]
    (by intro r hr; simp at hr; simp [hr, RAW_ADDRESS_SIZE]) [0xde, 0xad]
    (by simp) (by simp)

/-! ### Claim theorems: normalisation and the address order -/

/-- C4: `sorted_and_unique` produces a list that is strictly ascending in the
`(ip, port)` order (hence has no two equal adjacent entries), and the
operation is idempotent. -/
theorem sorted_and_unique_strictly_ascending_idempotent (l : List ServerAddress) :
    (sorted_and_unique l).Pairwise ServerAddress.lt ∧
    sorted_and_unique (sorted_and_unique l) = sorted_and_unique l :=
  ⟨sorted_and_unique_pairwise l,
   sorted_and_unique_eq_self (sorted_and_unique_pairwise l)⟩

/-- C9: `sorted_and_unique` neither invents nor loses addresses: a value
occurs in the output exactly when it occurs in the input. -/
theorem sorted_and_unique_mem_iff (l : List ServerAddress) (a : ServerAddress) :
    a ∈ sorted_and_unique l ↔ a ∈ l :=
  mem_sorted_and_unique l a

/-- C7: the derived comparison on `ServerAddress` is a strict total order that
compares first by `ip` (string comparison) and breaks ties by numeric
comparison of `port`; equality used for deduplication is structural equality
on `(ip, port)`. -/
theorem serverAddress_order_total_ip_then_port :
    (∀ a b c : ServerAddress,
      ServerAddress.lt a b → ServerAddress.lt b c → ServerAddress.lt a c) ∧
    (∀ a b : ServerAddress,
      ServerAddress.lt a b ∨ a = b ∨ ServerAddress.lt b a) ∧
    (∀ a b : ServerAddress, ¬(ServerAddress.lt a b ∧ ServerAddress.lt b a)) ∧
    (∀ a b : ServerAddress, a.ip ≠ b.ip →
      (ServerAddress.lt a b ↔ a.ip < b.ip)) ∧
    (∀ a b : ServerAddress, a.ip = b.ip →
      (ServerAddress.lt a b ↔ a.port < b.port)) ∧
    (∀ a b : ServerAddress, a = b ↔ a.ip = b.ip ∧ a.port = b.port) := by
  refine ⟨fun _ _ _ => sa_lt_trans, ?_, ?_, ?_, ?_, fun _ _ => sa_eq_iff⟩
  · intro a b
    rcases lt_trichotomy a.ip b.ip with h | h | h
    · exact Or.inl (Or.inl h)
    · rcases Nat.lt_trichotomy a.port b.port with hp | hp | hp
      · exact Or.inl (Or.inr ⟨h, hp⟩)
      · exact Or.inr (Or.inl (sa_eq_iff.mpr ⟨h, hp⟩))
      · exact Or.inr (Or.inr (Or.inr ⟨h.symm, hp⟩))
    · exact Or.inr (Or.inr (Or.inl h))
  · rintro a b ⟨h1, h2⟩
    exact sa_ne_of_lt (sa_lt_trans h1 h2) rfl
  · intro a b hne
    constructor
    · rintro (h | ⟨h, -⟩)
      · exact h
      · exact absurd h hne
    · exact Or.inl
  · intro a b hip
    constructor
    · rintro (h | ⟨-, h⟩)
      · exact absurd h (hip ▸ lt_irrefl _)
      · exact h
    · exact fun h => Or.inr ⟨hip, h⟩

theorem serverAddress_order_witness :
    ServerAddress.lt ⟨"1.1.1.1", 1⟩ ⟨"1.1.1.1", 3⟩ ∧
    (ServerAddress.lt ⟨"1.1.1.1", 1⟩ ⟨"1.1.1.1", 2⟩ ↔ (1 : Nat) < 2) :=
  ⟨serverAddress_order_total_ip_then_port.1 ⟨"1.1.1.1", 1⟩ ⟨"1.1.1.1", 2⟩
      ⟨"1.1.1.1", 3⟩ (Or.inr ⟨rfl, by decide⟩) (Or.inr ⟨rfl, by decide⟩),
   serverAddress_order_total_ip_then_port.2.2.2.2.1 ⟨"1.1.1.1", 1⟩
      ⟨"1.1.1.1", 2⟩ rfl⟩

/-! ### Claim theorems: single-master query and fan-out -/

/-- C5: `server_addresses` sends exactly the fixed 3-byte command
`[0x63, 0x0A, 0x00]`, propagates a transport error unchanged, propagates a
parser error unchanged, and otherwise returns the parsed addresses
normalised by `sorted_and_unique`. -/
theorem server_addresses_sends_command_and_propagates (net : Net)
    (master : String) (t : Option Nat) :
    SERVERS_COMMAND = [0x63, 0x0a, 0x00] ∧
    (∀ e, net master SERVERS_COMMAND t = Except.error e →
      server_addresses net master t = Except.error e) ∧
    (∀ r e, net master SERVERS_COMMAND t = Except.ok r →
      parse_servers_response r = Except.error e →
      server_addresses net master t = Except.error e) ∧
    (∀ r v, net master SERVERS_COMMAND t = Except.ok r →
      parse_servers_response r = Except.ok v →
      server_addresses net master t = Except.ok (sorted_and_unique v)) := by
  refine ⟨rfl, ?_, ?_, ?_⟩
  · intro e h
    unfold server_addresses
    rw [h]
    rfl
  · intro r e h hp
    unfold server_addresses
    rw [h]
    show sorted_and_unique <$> parse_servers_response r = Except.error e
    rw [hp]
    rfl
  · intro r v h hp
    unfold server_addresses
    rw [h]
    show sorted_and_unique <$> parse_servers_response r = Except.ok (sorted_and_unique v)
    rw [hp]
    rfl

theorem server_addresses_sends_command_witness :
    server_addresses (fun _ _ _ => Except.error "udp::receive: timed out")
        "quake.example:27000" none = Except.error "udp::receive: timed out" ∧
    server_addresses (fun _ _ _ => Except.ok [0xff, 0xff])
        "quake.example:27000" none = Except.error "Invalid response" ∧
    server_addresses (fun _ _ _ => Except.ok SERVERS_RESPONSE_HEADER)
        "quake.example:27000" none = Except.ok (sorted_and_unique []) :=
  ⟨(server_addresses_sends_command_and_propagates _ "quake.example:27000"
      none).2.1 _ rfl,
   (server_addresses_sends_command_and_propagates _ "quake.example:27000"
      none).2.2.1 [0xff, 0xff] _ rfl rfl,
   (server_addresses_sends_command_and_propagates _ "quake.example:27000"
      none).2.2.2 SERVERS_RESPONSE_HEADER [] rfl rfl⟩

theorem mem_masterContribution (net : Net) (t : Option Nat) (m : String)
    (a : ServerAddress) :
    a ∈ masterContribution net t m ↔
      ∃ servers, server_addresses net m t = Except.ok servers ∧ a ∈ servers := by
  rw [masterContribution]
  rcases h : server_addresses net m t with e | s <;> simp [h]

/-- C6: `server_addresses_from_many` never surfaces an error (its result type
carries none); whatever order the per-master tasks finish in — i.e. for every
permutation `acc` of the concatenated successful results that the
mutex-guarded accumulator may end up holding — the call returns the sorted,
duplicate-free union of exactly the successful masters' results. -/
theorem fan_out_resilience (net : Net) (masters : List String) (t : Option Nat) :
    (∀ acc : List ServerAddress,
      acc.Perm (List.flatten (masters.map (masterContribution net t))) →
      sorted_and_unique acc = server_addresses_from_many net masters t) ∧
    (server_addresses_from_many net masters t).Pairwise ServerAddress.lt ∧
    (∀ a, a ∈ server_addresses_from_many net masters t ↔
      ∃ m ∈ masters, ∃ servers,
        server_addresses net m t = Except.ok servers ∧ a ∈ servers) := by
  refine ⟨?_, sorted_and_unique_pairwise _, ?_⟩
  · intro acc h
    rw [server_addresses_from_many]
    exact sorted_and_unique_perm h
  · intro a
    rw [server_addresses_from_many, mem_sorted_and_unique, List.mem_flatten]
    constructor
    · rintro ⟨l, hl, hal⟩
      obtain ⟨m, hm, rfl⟩ := List.mem_map.mp hl
      obtain ⟨servers, hs, has⟩ := (mem_masterContribution net t m a).mp hal
      exact ⟨m, hm, servers, hs, has⟩
    · rintro ⟨m, hm, servers, hs, has⟩
      exact ⟨masterContribution net t m, List.mem_map_of_mem _ hm,
        (mem_masterContribution net t m a).mpr ⟨servers, hs, has⟩⟩

theorem fan_out_resilience_witness :
    sorted_and_unique
        (List.flatten (["good", "bad"].map (masterContribution
          (fun m _ _ =>
            if m = "good"
            then Except.ok (SERVERS_RESPONSE_HEADER ++ [1, 2, 3, 4, 0, 7])
            else Except.error "udp::receive: timed out") none))) =
      server_addresses_from_many
        (fun m _ _ =>
          if m = "good"
          then Except.ok (SERVERS_RESPONSE_HEADER ++ [1, 2, 3, 4, 0, 7])
          else Except.error "udp::receive: timed out") ["good", "bad"] none :=
  (fan_out_resilience _ ["good", "bad"] none).1 _ (List.Perm.refl _)

/-- C10: with an empty list of masters the fan-out spawns no task and returns
the empty list, for every transport behaviour and optional timeout. -/
theorem server_addresses_from_many_empty (net : Net) (t : Option Nat) :
    server_addresses_from_many net [] t = [] := by
  simp [server_addresses_from_many, sorted_and_unique, dedupAdjacent]

end Masterstat
